import Mathlib

/-!
# Verification of the ViedoSerach keyword-to-timestamp resolution pipeline

Shallow embedding of `src/main.go`. Go strings are modelled as `List Char`
(`Str`); Go `float64` time values are modelled as `ℚ` (exact rational
arithmetic in place of floating point); external collaborators (yt-dlp,
ffmpeg, the transcription API, the filesystem) are modelled as explicit
environment records holding each call's outcome, so that the pure control
flow of the Go functions can be reproduced faithfully.
-/

namespace VideoSearch

/-- Go strings, modelled as character lists. -/
abbrev Str := List Char

/-- `unicode.IsSpace` restricted to ASCII, as used by Go's
`strings.TrimSpace` and `strings.Fields`. -/
def uSpace (c : Char) : Bool :=
  c = ' ' || c = '\t' || c = '\n' || c = '\x0b' || c = '\x0c' || c = '\r'

/-- The regexp character class `\s` of Go's `regexp` package:
`[\t\n\f\r ]` (note: no vertical tab). -/
def reSpace (c : Char) : Bool :=
  c = ' ' || c = '\t' || c = '\n' || c = '\x0c' || c = '\r'

/-- `strings.ToLower` (ASCII case mapping). -/
def lowerStr (s : Str) : Str := s.map Char.toLower

/-- `strings.TrimSpace`: drop leading and trailing whitespace. -/
def trimSpace (s : Str) : Str :=
  ((s.dropWhile uSpace).reverse.dropWhile uSpace).reverse

/-- `strings.HasPrefix s pat`: does `s` start with `pat`? -/
def hasPre : Str → Str → Bool
  | _, [] => true
  | [], _ :: _ => false
  | a :: as, b :: bs => a = b && hasPre as bs

/-- `strings.Index s pat`: position of the first occurrence of `pat` in
`s` (`none` models Go's `-1`). -/
def indexOfSub (s pat : Str) : Option Nat :=
  if hasPre s pat then some 0
  else
    match s with
    | [] => none
    | _ :: t => (indexOfSub t pat).map (· + 1)

/-- `strings.Contains s pat`. -/
def containsSub (s pat : Str) : Bool := (indexOfSub s pat).isSome

/-- Split a string at every occurrence of whitespace (single-character
separators, empty pieces kept); helper for `strings.Fields`. -/
def splitOnSpace : Str → List Str
  | [] => [[]]
  | a :: rest =>
    if uSpace a then [] :: splitOnSpace rest
    else
      match splitOnSpace rest with
      | p :: ps => (a :: p) :: ps
      | [] => [[a]]

/-- `strings.Fields`: the whitespace-delimited words of `s`. -/
def fieldsOf (s : Str) : List Str := (splitOnSpace s).filter (fun w => !w.isEmpty)

/-- `countWordsBeforeKeyword` (main.go:631-644): number of
whitespace-delimited words in `text` strictly before the first
case-insensitive occurrence of `keyword`; `0` when the keyword is absent. -/
def countWordsBeforeKeyword (text keyword : Str) : Nat :=
  match indexOfSub (lowerStr text) (lowerStr keyword) with
  | none => 0
  | some i => (fieldsOf (text.take i)).length

/-- The Word-Offset Estimator: `words / 150 * 60` seconds, as computed
inline at main.go:145-146 and main.go:443-444. -/
def estimateSeconds (text keyword : Str) : ℚ :=
  ((countWordsBeforeKeyword text keyword : ℕ) : ℚ) / 150 * 60

/-! ## Caption Parser (`ParseSRTContent`, main.go:270-318) -/

/-- A parsed SRT caption entry (Go `SubtitleEntry`). -/
structure SubtitleEntry where
  start : ℚ
  end_ : ℚ
  text : Str
  deriving Repr, DecidableEq

/-- `strings.Split s (String.singleton c)`: split at every occurrence of
the character `c`, keeping empty pieces. -/
def splitOnChar (c : Char) : Str → List Str
  | [] => [[]]
  | a :: rest =>
    if a = c then [] :: splitOnChar c rest
    else
      match splitOnChar c rest with
      | p :: ps => (a :: p) :: ps
      | [] => [[a]]

/-- `strings.Split content "\n\n"`: split at every (non-overlapping,
leftmost-first) occurrence of a blank-line separator. -/
def splitOnNN : Str → List Str
  | [] => [[]]
  | '\n' :: '\n' :: rest => [] :: splitOnNN rest
  | a :: rest =>
    match splitOnNN rest with
    | p :: ps => (a :: p) :: ps
    | [] => [[a]]

/-- `SubtitleParser.parseTime` (main.go:52-58): hours/minutes/seconds plus
milliseconds over 1000.  The Go code ignores `strconv.Atoi` errors, which
cannot occur here because the regexp delivers digit-only groups. -/
def parseTime (h m s ms : Nat) : ℚ :=
  ((h * 3600 + m * 60 + s : ℕ) : ℚ) + ((ms : ℕ) : ℚ) / 1000

/-- Numeric value of an ASCII digit. -/
def digitVal (c : Char) : Nat := c.toNat - '0'.toNat

/-- Match `\d{2}` at the head of the input. -/
def parse2Digits : Str → Option (Nat × Str)
  | c1 :: c2 :: r =>
    if c1.isDigit && c2.isDigit then some (digitVal c1 * 10 + digitVal c2, r) else none
  | _ => none

/-- Match `\d{3}` at the head of the input. -/
def parse3Digits : Str → Option (Nat × Str)
  | c1 :: c2 :: c3 :: r =>
    if c1.isDigit && c2.isDigit && c3.isDigit then
      some ((digitVal c1 * 10 + digitVal c2) * 10 + digitVal c3, r)
    else none
  | _ => none

/-- Match one literal character at the head of the input. -/
def expectChar (c : Char) : Str → Option Str
  | a :: r => if a = c then some r else none
  | [] => none

/-- Match `\s*` (regexp whitespace, greedy). -/
def skipRe (s : Str) : Str := s.dropWhile reSpace

/-- Match `(\d{2}):(\d{2}):(\d{2}),(\d{3})` at the head of the input and
convert the groups with `parseTime`. -/
def parseTimeGroups (s : Str) : Option (ℚ × Str) := do
  let (h, s) ← parse2Digits s
  let s ← expectChar ':' s
  let (m, s) ← parse2Digits s
  let s ← expectChar ':' s
  let (sec, s) ← parse2Digits s
  let s ← expectChar ',' s
  let (ms, s) ← parse3Digits s
  pure (parseTime h m sec ms, s)

/-- Match the full timecode pattern
`(\d{2}):(\d{2}):(\d{2}),(\d{3})\s*-->\s*(\d{2}):(\d{2}):(\d{2}),(\d{3})`
at the head of the input, returning the two parsed times. -/
def timecodeAt (s : Str) : Option (ℚ × ℚ) := do
  let (st, s) ← parseTimeGroups s
  let s := skipRe s
  let s ← expectChar '-' s
  let s ← expectChar '-' s
  let s ← expectChar '>' s
  let s := skipRe s
  let (en, _) ← parseTimeGroups s
  pure (st, en)

/-- `timeRegex.FindStringSubmatch` on a line: find the leftmost position
where the timecode pattern matches (the pattern has fixed-width pieces, so
the leftmost-position match is the regexp's match). -/
def findTimecode : Str → Option (ℚ × ℚ)
  | [] => none
  | c :: t =>
    match timecodeAt (c :: t) with
    | some r => some r
    | none => findTimecode t

/-- The scan of main.go:281-287 followed by the submatch extraction at
main.go:292-298: find the first line on which the timecode regexp
matches, returning the parsed start/end times and the lines after it. -/
def findTimelineSplit : List Str → Option (ℚ × ℚ × List Str)
  | [] => none
  | l :: rest =>
    match findTimecode l with
    | some (st, en) => some (st, en, rest)
    | none => findTimelineSplit rest

/-- Tail of the input after the first `'>'`, if any; helper for the
regexp `<[^>]*>`. -/
def dropThroughGt : Str → Option Str
  | [] => none
  | c :: r => if c = '>' then some r else dropThroughGt r

/-- `regexp.MustCompile("<[^>]*>").ReplaceAllString text ""`
(main.go:303): remove every leftmost-first occurrence of `<`…`>`; a `<`
with no later `>` is kept.  `buf` holds a pending unclosed tag, reversed. -/
def stripTagsGo : Str → Option Str → Str
  | [], none => []
  | [], some buf => buf.reverse
  | c :: r, none => if c = '<' then stripTagsGo r (some [c]) else c :: stripTagsGo r none
  | c :: r, some buf => if c = '>' then stripTagsGo r none else stripTagsGo r (some (c :: buf))

/-- Strip inline markup tags from a caption text line. -/
def stripTags (s : Str) : Str := stripTagsGo s none

/-- `strings.Join parts sep`. -/
def joinWith (sep : Str) : List Str → Str
  | [] => []
  | [x] => x
  | x :: y :: xs => x ++ sep ++ joinWith sep (y :: xs)

/-- Processing of one block of the SRT document (loop body,
main.go:275-315): `none` when the block is discarded. -/
def parseBlock (block : Str) : Option SubtitleEntry :=
  let lines := splitOnChar '\n' (trimSpace block)
  if lines.length < 2 then none
  else
    match findTimelineSplit lines with
    | none => none
    | some (st, en, after) =>
      let parts := after.foldr
        (fun l acc =>
          let t := trimSpace l
          if t.isEmpty then acc else stripTags t :: acc) []
      if parts.isEmpty then none
      else some { start := st, end_ := en, text := joinWith [' '] parts }

/-- `SubtitleParser.ParseSRTContent` (main.go:270-318): split the document
into blank-line-separated blocks and accumulate one entry per parseable
block.  The Go function's error result is always `nil`; the `Except`
return type records that no code path produces an error. -/
def ParseSRTContent (content : Str) : Except Str (List SubtitleEntry) :=
  .ok ((splitOnNN content).foldl
    (fun acc b =>
      match parseBlock b with
      | some e => acc ++ [e]
      | none => acc) [])

/-! ## Chunked Transcription Orchestrator, Mode A
(`TranscribeChunkedUntilMatch`, main.go:179-269)

External effects are modelled by a `ModeAEnv` record: the outcome of the
audio download, of the chunk-directory creation, of the ffmpeg
segmentation, and — for each produced chunk, in the index order obtained
from the sorted chunk file names — the outcome of the transcription call
(`none` = the call returned an error; `some segs` = the returned timed
segments, with chunk-local timestamps). -/

/-- A timed segment returned by the transcription capability
(`resp.Segments` element: `Start`, `End`, `Text`). -/
structure Seg where
  start : ℚ
  end_ : ℚ
  text : Str
  deriving Repr, DecidableEq

/-- Outcome of one `client.CreateTranscription` call in Mode A. -/
abbrev ChunkOutcome := Option (List Seg)

/-- `chunkDurationSec := 300` (main.go:203 and main.go:505). -/
def chunkDurationSec : Nat := 300

/-- Does this segment's lowered text contain the lowered keyword? -/
def segMatches (lowerKw : Str) (s : Seg) : Bool :=
  containsSub (lowerStr s.text) lowerKw

/-- The inner segment scan of main.go:257-263: first returned segment of
the chunk whose text contains the keyword. -/
def findMatchSeg (lowerKw : Str) (segs : List Seg) : Option Seg :=
  segs.find? (segMatches lowerKw)

/-- The chunk loop of main.go:239-264, starting at chunk index `i`.
Returns the search result (`some` absolute timestamp on a match) together
with the number of transcription calls performed.  An errored chunk
(`none`) is logged and skipped (`continue`); a matching segment returns
`s.Start + float64(i*chunkDurationSec)` immediately. -/
def modeALoop (lowerKw : Str) : List ChunkOutcome → Nat → Option ℚ × Nat
  | [], _ => (none, 0)
  | none :: rest, i =>
    let r := modeALoop lowerKw rest (i + 1)
    (r.1, r.2 + 1)
  | some segs :: rest, i =>
    match findMatchSeg lowerKw segs with
    | some s => (some (s.start + ((i * chunkDurationSec : ℕ) : ℚ)), 1)
    | none =>
      let r := modeALoop lowerKw rest (i + 1)
      (r.1, r.2 + 1)

/-- Environment of one `TranscribeChunkedUntilMatch` run. -/
structure ModeAEnv where
  audioDownloadOk : Bool
  mkdirOk : Bool
  segmentationOk : Bool
  chunks : List ChunkOutcome
  apiKeyPresent : Bool
  deriving Repr, DecidableEq

/-- `TranscribeChunkedUntilMatch` (main.go:179-269), instrumented: the
first component is the Go return value (`(timestamp, found)` on `nil`
error, `.error` otherwise), the second the number of transcription calls
performed.  The guards mirror the Go early returns in order: audio
download, `os.MkdirAll`, ffmpeg segmentation, `len(chunkFiles) == 0`,
missing `OPENAI_API_KEY`. -/
def TranscribeChunkedUntilMatchT (env : ModeAEnv) (keyword : Str) :
    Except Str (ℚ × Bool) × Nat :=
  if env.audioDownloadOk = false then (.error "audio download failed".data, 0)
  else if env.mkdirOk = false then (.error "failed to create chunks dir".data, 0)
  else if env.segmentationOk = false then (.error "failed to segment audio".data, 0)
  else if env.chunks.length = 0 then (.error "no chunks produced".data, 0)
  else if env.apiKeyPresent = false then (.error "OPENAI_API_KEY not set".data, 0)
  else
    let o := modeALoop (lowerStr (trimSpace keyword)) env.chunks 0
    match o.1 with
    | some ts => (.ok (ts, true), o.2)
    | none => (.ok (0, false), o.2)

/-- The Go return value of `TranscribeChunkedUntilMatch`. -/
def TranscribeChunkedUntilMatch (env : ModeAEnv) (keyword : Str) :
    Except Str (ℚ × Bool) :=
  (TranscribeChunkedUntilMatchT env keyword).1

/-- Number of `client.CreateTranscription` calls a
`TranscribeChunkedUntilMatch` run performs. -/
def modeACalls (env : ModeAEnv) (keyword : Str) : Nat :=
  (TranscribeChunkedUntilMatchT env keyword).2

/-- Does a Mode A chunk outcome contain a keyword match? -/
def chunkHasMatch (lowerKw : Str) : ChunkOutcome → Bool
  | none => false
  | some segs => (findMatchSeg lowerKw segs).isSome

/-! ## Chunked Transcription Orchestrator, Mode B
(`GetTranscript`, main.go:450-628) -/

/-- Go `TranscriptSegment` (main.go:30-40), the JSON transcript segment
type.  The fields `Tokens`, `Temperature`, `AvgLogprob`,
`CompressionRatio`, `NoSpeechProb` are set to zero values by the merge
and never read by any consumer, so they are omitted. -/
structure TranscriptSegment where
  id : Nat
  start : ℚ
  end_ : ℚ
  text : Str
  deriving Repr, DecidableEq

/-- Go `TranscriptResponse` (main.go:42-47). -/
structure TranscriptResponse where
  text : Str
  language : Str
  duration : ℚ
  segments : List TranscriptSegment
  deriving Repr, DecidableEq

/-- A successful `CreateTranscription` response in Mode B (`resp.Text`
and `resp.Segments`). -/
structure ChunkResp where
  text : Str
  segments : List Seg
  deriving Repr, DecidableEq

/-- Environment of one `GetTranscript` run: external-call outcomes, with
`chunks` holding each chunk's transcription outcome in index order
(`none` = that chunk's call returned an error). -/
structure ModeBEnv where
  audioDownloadOk : Bool
  mkdirOk : Bool
  segmentationOk : Bool
  chunks : List (Option ChunkResp)
  apiKeyPresent : Bool
  writeOk : Bool
  deriving Repr, DecidableEq

/-- Per-chunk mapping of main.go:571-586: re-number the segments within
the chunk and offset every time value by `float64(i * chunkDurationSec)`. -/
def mergeChunk (i : Nat) (r : ChunkResp) : List TranscriptSegment :=
  r.segments.enum.map fun p =>
    { id := p.1,
      start := p.2.start + ((i * chunkDurationSec : ℕ) : ℚ),
      end_ := p.2.end_ + ((i * chunkDurationSec : ℕ) : ℚ),
      text := p.2.text }

/-- Index of the first errored chunk, mirroring the error sweep at
main.go:592-596. -/
def firstErr : List (Option ChunkResp) → Option Nat
  | [] => none
  | none :: _ => some 0
  | some _ :: rest => (firstErr rest).map (· + 1)

/-- The merge loop of main.go:598-611: concatenate offset-adjusted
segments in index order, join the non-empty chunk texts with a single
space, and set `Duration` to the last merged segment's `End` (zero when
there are no segments).  The `sort.Slice` by index at main.go:599 is the
identity here because `results` is already indexed in order.  Defined
only on all-`some` chunk lists (`getD` supplies a dummy for the
impossible `none` case). -/
def mergeResults (chunks : List (Option ChunkResp)) : TranscriptResponse :=
  let rs := chunks.enum.map fun p => (p.1, p.2.getD ⟨[], []⟩)
  let acc := rs.foldl
    (fun acc r =>
      (acc.1 ++ mergeChunk r.1 r.2,
       if r.2.text.isEmpty then acc.2 else acc.2 ++ [r.2.text]))
    ([], [])
  { text := joinWith [' '] acc.2,
    language := [],
    duration :=
      match acc.1.getLast? with
      | some s => s.end_
      | none => 0,
    segments := acc.1 }

/-- `GetTranscript` (main.go:450-628).  The Go function persists the
merged transcript as `transcript_segments.json` and returns that file
name; the model returns the merged transcript itself (the content the
pipeline reads back from the file).  Guards mirror the Go early returns
in order: audio download, `os.MkdirAll`, ffmpeg segmentation,
`len(chunkFiles) == 0`, missing `OPENAI_API_KEY`, first errored chunk,
`os.WriteFile` failure. -/
def GetTranscript (env : ModeBEnv) : Except Str TranscriptResponse :=
  if env.audioDownloadOk = false then .error "audio download failed".data
  else if env.mkdirOk = false then .error "failed to create chunks dir".data
  else if env.segmentationOk = false then .error "failed to segment audio".data
  else if env.chunks.length = 0 then .error "no chunks produced".data
  else if env.apiKeyPresent = false then .error "OPENAI_API_KEY not set".data
  else
    match firstErr env.chunks with
    | some _ => .error "chunk transcription failed".data
    | none =>
      if env.writeOk = false then .error "failed to save transcript".data
      else .ok (mergeResults env.chunks)

/-! ## Transcript Stream Searcher
(`searchInTranscriptJSON`, main.go:378-449)

The JSON transcript document is modelled as its top-level key/value
pairs in document order: a `segments` array, the top-level `text` string,
or any other key (skipped by the decoder).  Structural decode failures
(invalid JSON) are outside the model, which covers well-formed documents
such as the one `GetTranscript` writes. -/

/-- One top-level field of the streamed JSON document, in document
order. -/
inductive JField where
  | segments (ss : List TranscriptSegment)
  | text (t : Str)
  | other
  deriving Repr, DecidableEq

/-- Does a decoded segment's lowered text contain the lowered keyword
(main.go:415)? -/
def tsMatches (lowerKw : Str) (s : TranscriptSegment) : Bool :=
  containsSub (lowerStr s.text) lowerKw

/-- The element-at-a-time array scan of main.go:410-418: result of the
early-exit search together with the number of elements decoded. -/
def scanSegs (lowerKw : Str) : List TranscriptSegment → Option ℚ × Nat
  | [] => (none, 0)
  | s :: rest =>
    if tsMatches lowerKw s then (some s.start, 1)
    else
      let r := scanSegs lowerKw rest
      (r.1, r.2 + 1)

/-- Instrumented outcome of the top-level token walk. -/
structure StreamOut where
  res : Option ℚ
  segsDecoded : Nat
  fieldsVisited : Nat
  fullText : Str
  deriving Repr, DecidableEq

/-- The top-level field loop of main.go:398-439: walk the fields in
document order, threading the captured `fullText`; on the first matching
segment return its `start` immediately, visiting no further field and
decoding no further segment. -/
def streamLoop (lowerKw : Str) : List JField → Str → StreamOut
  | [], ft => ⟨none, 0, 0, ft⟩
  | .segments ss :: rest, ft =>
    match scanSegs lowerKw ss with
    | (some ts, n) => ⟨some ts, n, 1, ft⟩
    | (none, n) =>
      let o := streamLoop lowerKw rest ft
      ⟨o.res, n + o.segsDecoded, o.fieldsVisited + 1, o.fullText⟩
  | .text t :: rest, _ =>
    let o := streamLoop lowerKw rest t
    ⟨o.res, o.segsDecoded, o.fieldsVisited + 1, o.fullText⟩
  | .other :: rest, ft =>
    let o := streamLoop lowerKw rest ft
    ⟨o.res, o.segsDecoded, o.fieldsVisited + 1, o.fullText⟩

/-- The instrumented run of `searchInTranscriptJSON` on a document. -/
def searchTrace (doc : List JField) (keyword : Str) : StreamOut :=
  streamLoop (lowerStr (trimSpace keyword)) doc []

/-- `searchInTranscriptJSON` (main.go:378-449): stream the document's
top-level fields; on a segment match return its `start`; otherwise fall
back to a case-insensitive scan of the captured full `text`, converting
the word offset at 150 words per minute.  `some ts` models Go's
`(ts, true, nil)`, `none` models `(0, false, nil)`. -/
def searchInTranscriptJSON (doc : List JField) (keyword : Str) : Option ℚ :=
  let o := searchTrace doc keyword
  match o.res with
  | some ts => some ts
  | none =>
    if !o.fullText.isEmpty &&
        containsSub (lowerStr o.fullText) (lowerStr (trimSpace keyword)) then
      some (estimateSeconds o.fullText keyword)
    else none

/-! ## Resolution Pipeline
(`App.SearchKeywordInSubtitles`, main.go:88-175) -/

/-- The document `json.Unmarshal`-round-trip of the transcript file
`GetTranscript` writes: `json.MarshalIndent` emits the struct fields of
`TranscriptResponse` in declaration order (`text`, `language`,
`duration`, `segments`), which is the field order the streaming decoder
then walks. -/
def docOfTranscript (t : TranscriptResponse) : List JField :=
  [JField.text t.text, JField.other, JField.other, JField.segments t.segments]

/-- Environment of one pipeline run: `captions` is the joint outcome of
the caption download and the SRT-file read at main.go:100-113 (`some
content` when the `.srt` file exists and is readable, `none` otherwise);
`readTranscriptOk` is the outcome of the transcript-file read at
main.go:128. -/
structure PipelineEnv where
  captions : Option Str
  modeA : ModeAEnv
  modeB : ModeBEnv
  readTranscriptOk : Bool
  deriving Repr, DecidableEq

/-- Steps 4-5 of the fallback branch (main.go:123-153): acquire the full
transcript via Mode B and search it.  `GetTranscript` always returns a
`.json` file name (`transcript_segments.json`), so the
`strings.HasSuffix .json` test at main.go:134 always takes the JSON
branch; the plain-text branch at main.go:140-149 is unreachable. -/
def pipelineFallback (env : PipelineEnv) (keyword langCode : Str) :
    Except Str (ℚ × Bool × Str) :=
  match GetTranscript env.modeB with
  | .error e => .error ("failed to get transcript: ".data ++ e)
  | .ok merged =>
    if env.readTranscriptOk = false then .error "failed to read transcript file".data
    else
      match searchInTranscriptJSON (docOfTranscript merged) keyword with
      | some ts => .ok (ts, true, langCode)
      | none => .ok (0, false, langCode)

/-- `App.SearchKeywordInSubtitles` (main.go:88-175).  Returns Go's
`(timestamp, found, langCode)` on `nil` error.  When the caption tier
fails, Mode A is attempted first (match → immediate return; error or
no-match → continue, main.go:117-121), then the Mode B fallback. -/
def SearchKeywordInSubtitles (env : PipelineEnv) (keyword lang : Str) :
    Except Str (ℚ × Bool × Str) :=
  let lc0 := lowerStr (trimSpace lang)
  let langCode := if lc0.isEmpty then "en".data else lc0
  let lowerKeyword := lowerStr keyword
  match env.captions with
  | none =>
    match TranscribeChunkedUntilMatch env.modeA keyword with
    | .ok (ts, true) => .ok (ts, true, langCode)
    | _ => pipelineFallback env keyword langCode
  | some srtContent =>
    match ParseSRTContent srtContent with
    | .error _ => .error "failed to parse SRT subtitles".data
    | .ok subs =>
      match subs.find? (fun sub => containsSub (lowerStr sub.text) lowerKeyword) with
      | some sub => .ok (sub.start, true, langCode)
      | none => .ok (0, false, langCode)

/-! ## Filesystem instrumentation

Presence flags for the fixed-name temporary artifacts the code creates:
`audio.mp3`, the `chunks_early` directory (Mode A), the `chunks`
directory (Mode B), `transcript_segments.json`, and the downloaded
`temp_subs.<lang>.srt` file.  Each `fs…` function repeats its value
model's control flow, additionally threading which artifacts exist. -/

structure FS where
  audioFile : Bool
  chunksEarlyDir : Bool
  chunksDir : Bool
  transcriptFile : Bool
  srtFile : Bool
  deriving Repr, DecidableEq

/-- The empty scratch directory. -/
def FS.clean : FS := ⟨false, false, false, false, false⟩

/-- `TranscribeChunkedUntilMatch` with its filesystem effects
(main.go:179-269): the audio download creates `audio.mp3`;
`os.RemoveAll`/`os.MkdirAll` recreate `chunks_early`; every exit after
segmentation removes both — except the `os.MkdirAll` failure return at
main.go:200-202, which removes neither. -/
def fsTranscribeChunkedUntilMatch (env : ModeAEnv) (keyword : Str) (fs : FS) :
    Except Str (ℚ × Bool) × FS :=
  if env.audioDownloadOk = false then (.error "audio download failed".data, fs)
  else
    let fs := { fs with audioFile := true, chunksEarlyDir := false }
    if env.mkdirOk = false then (.error "failed to create chunks dir".data, fs)
    else
      let fs := { fs with chunksEarlyDir := true }
      if env.segmentationOk = false then
        (.error "failed to segment audio".data,
         { fs with audioFile := false, chunksEarlyDir := false })
      else if env.chunks.length = 0 then
        (.error "no chunks produced".data,
         { fs with audioFile := false, chunksEarlyDir := false })
      else if env.apiKeyPresent = false then
        (.error "OPENAI_API_KEY not set".data,
         { fs with audioFile := false, chunksEarlyDir := false })
      else
        match (modeALoop (lowerStr (trimSpace keyword)) env.chunks 0).1 with
        | some ts =>
          (.ok (ts, true), { fs with audioFile := false, chunksEarlyDir := false })
        | none =>
          (.ok (0, false), { fs with audioFile := false, chunksEarlyDir := false })

/-- `GetTranscript` with its filesystem effects (main.go:450-628): the
audio download creates `audio.mp3`, `os.RemoveAll`/`os.MkdirAll`
recreate `chunks`, the transcript write creates
`transcript_segments.json`; `audio.mp3` and `chunks` are removed only on
the success path (main.go:623-625) — every error return after the
download (segmentation failure, no chunks, missing key, chunk
transcription failure, write failure) leaves them in place. -/
def fsGetTranscript (env : ModeBEnv) (fs : FS) :
    Except Str TranscriptResponse × FS :=
  if env.audioDownloadOk = false then (.error "audio download failed".data, fs)
  else
    let fs := { fs with audioFile := true, chunksDir := false }
    if env.mkdirOk = false then (.error "failed to create chunks dir".data, fs)
    else
      let fs := { fs with chunksDir := true }
      if env.segmentationOk = false then (.error "failed to segment audio".data, fs)
      else if env.chunks.length = 0 then (.error "no chunks produced".data, fs)
      else if env.apiKeyPresent = false then (.error "OPENAI_API_KEY not set".data, fs)
      else
        match firstErr env.chunks with
        | some _ => (.error "chunk transcription failed".data, fs)
        | none =>
          if env.writeOk = false then (.error "failed to save transcript".data, fs)
          else
            let fs := { fs with transcriptFile := true }
            (.ok (mergeResults env.chunks),
             { fs with audioFile := false, chunksDir := false })

/-- `App.SearchKeywordInSubtitles` with its filesystem effects
(main.go:88-175).  In the caption branch the `defer os.Remove(srtFile)`
at main.go:163 is registered before parsing, so it runs on every return
of that branch.  In the fallback branch the `defer
os.Remove(transcriptFile)` at main.go:152 is registered only on the
not-found fall-through, so the transcript file is removed on that path
alone — the keyword-found and error returns at main.go:135-148 happen
before the defer exists. -/
def fsSearchKeywordInSubtitles (env : PipelineEnv) (keyword lang : Str) (fs : FS) :
    Except Str (ℚ × Bool × Str) × FS :=
  let lc0 := lowerStr (trimSpace lang)
  let langCode := if lc0.isEmpty then "en".data else lc0
  let lowerKeyword := lowerStr keyword
  match env.captions with
  | none =>
    match fsTranscribeChunkedUntilMatch env.modeA keyword fs with
    | (.ok (ts, true), fs) => (.ok (ts, true, langCode), fs)
    | (_, fs) =>
      match fsGetTranscript env.modeB fs with
      | (.error e, fs) => (.error ("failed to get transcript: ".data ++ e), fs)
      | (.ok merged, fs) =>
        if env.readTranscriptOk = false then
          (.error "failed to read transcript file".data, fs)
        else
          match searchInTranscriptJSON (docOfTranscript merged) keyword with
          | some ts => (.ok (ts, true, langCode), fs)
          | none => (.ok (0, false, langCode), { fs with transcriptFile := false })
  | some srtContent =>
    let fs := { fs with srtFile := true }
    match ParseSRTContent srtContent with
    | .error _ => (.error "failed to parse SRT subtitles".data, { fs with srtFile := false })
    | .ok subs =>
      match subs.find? (fun sub => containsSub (lowerStr sub.text) lowerKeyword) with
      | some sub => (.ok (sub.start, true, langCode), { fs with srtFile := false })
      | none => (.ok (0, false, langCode), { fs with srtFile := false })

/-! ## Helper lemmas -/

/-- The empty pattern is a prefix of every string. -/
lemma hasPre_nil (s : Str) : hasPre s [] = true := by
  cases s <;> rfl

/-- The empty pattern occurs at position 0. -/
lemma indexOfSub_nil (s : Str) : indexOfSub s [] = some 0 := by
  unfold indexOfSub
  simp [hasPre_nil]

/-- Every string contains the empty substring. -/
lemma containsSub_nil (s : Str) : containsSub s [] = true := by
  simp [containsSub, indexOfSub_nil]

/-- A string of whitespace trims to the empty string. -/
lemma trimSpace_of_all_space (s : Str) (h : ∀ c ∈ s, uSpace c = true) :
    trimSpace s = [] := by
  have hd : s.dropWhile uSpace = [] := List.dropWhile_eq_nil_iff.mpr h
  simp [trimSpace, hd]

/-- The block-accumulation fold of `ParseSRTContent` is `filterMap`. -/
lemma foldl_accBlocks :
    ∀ (l : List Str) (acc : List SubtitleEntry),
      l.foldl (fun a b => match parseBlock b with | some e => a ++ [e] | none => a) acc =
        acc ++ l.filterMap parseBlock := by
  intro l
  induction l with
  | nil => intro acc; simp
  | cons x xs ih =>
    intro acc
    cases hx : parseBlock x with
    | none => simp [List.foldl_cons, hx, ih, List.filterMap_cons]
    | some e => simp [List.foldl_cons, hx, ih, List.filterMap_cons]

end VideoSearch

namespace VideoSearch

/-! ## Claim C7 — Caption Parser totality and block independence -/

/-- Claim C7: the Caption Parser never fails on any input: `ParseSRTContent`
always returns `.ok`, and its entries are exactly the per-block parses of
the blank-line-separated blocks in input order (so a block lacking a valid
timecode line, or whose post-timecode lines are all blank, is silently
dropped — `parseBlock` yields `none` — without raising an error); dropping
an unparseable block does not affect the entries produced from adjacent
blocks. -/
theorem parseSRT_total_and_block_independent :
    (∀ content : Str,
      ParseSRTContent content = .ok ((splitOnNN content).filterMap parseBlock)) ∧
    (∀ (bs1 : List Str) (b : Str) (bs2 : List Str), parseBlock b = none →
      (bs1 ++ b :: bs2).filterMap parseBlock = (bs1 ++ bs2).filterMap parseBlock) := by
  constructor
  · intro content
    simpa [ParseSRTContent] using foldl_accBlocks (splitOnNN content) []
  · intro bs1 b bs2 hb
    simp [List.filterMap_append, List.filterMap_cons, hb]

/-- Concrete SRT document: a well-formed block, a block with no timecode
line, a block whose post-timecode lines are all blank, and a second
well-formed block. -/
def srtDocEx : Str :=
  ("1\n00:00:01,500 --> 00:00:03,000\n<i>Hello</i> world\n\n" ++
   "junk block without a timecode\nsecond junk line\n\n" ++
   "9\n00:00:05,000 --> 00:00:06,000\n\n" ++
   "2\n00:01:02,000 --> 00:01:04,250\nsecond entry").data

/-- Witness for C7 at a concrete document: both malformed middle blocks
are dropped and the two good blocks parse, in order. -/
theorem parseSRT_total_and_block_independent_witness :
    ParseSRTContent srtDocEx = .ok ((splitOnNN srtDocEx).filterMap parseBlock) ∧
    (["good1".data] ++ "junk".data :: ["good2".data]).filterMap parseBlock =
      (["good1".data] ++ ["good2".data]).filterMap parseBlock ∧
    (splitOnNN srtDocEx).filterMap parseBlock =
      [⟨parseTime 0 0 1 500, parseTime 0 0 3 0, "Hello world".data⟩,
       ⟨parseTime 0 1 2 0, parseTime 0 1 4 250, "second entry".data⟩] :=
  ⟨parseSRT_total_and_block_independent.1 srtDocEx,
   parseSRT_total_and_block_independent.2 ["good1".data] "junk".data ["good2".data]
     (by decide),
   rfl⟩

/-! ## Claim C8 — Word-Offset Estimator -/

/-- Claim C8: the Word-Offset Estimator is a deterministic pure function of
its two arguments: it counts the whitespace-delimited words strictly before
the first case-insensitive occurrence of the keyword and returns
`words / 150 * 60` seconds; on `"a b c keyword d"` / `"keyword"` it returns
`1.2` seconds, and it returns `0` when the keyword is absent. -/
theorem estimator_word_offset :
    (∀ text keyword : Str, ∀ i : Nat,
      indexOfSub (lowerStr text) (lowerStr keyword) = some i →
      estimateSeconds text keyword = ((fieldsOf (text.take i)).length : ℚ) / 150 * 60) ∧
    (∀ text keyword : Str,
      indexOfSub (lowerStr text) (lowerStr keyword) = none →
      estimateSeconds text keyword = 0) ∧
    estimateSeconds "a b c keyword d".data "keyword".data = 6 / 5 := by
  refine ⟨?_, ?_, ?_⟩
  · intro text keyword i h
    simp [estimateSeconds, countWordsBeforeKeyword, h]
  · intro text keyword h
    simp [estimateSeconds, countWordsBeforeKeyword, h]
  · have h : countWordsBeforeKeyword "a b c keyword d".data "keyword".data = 3 := by decide
    rw [estimateSeconds, h]
    norm_num

/-- Witness for C8: the estimator applied at the first-occurrence index of
the concrete example, and at an absent keyword. -/
theorem estimator_word_offset_witness :
    estimateSeconds "a b c keyword d".data "keyword".data =
      ((fieldsOf (("a b c keyword d".data).take 6)).length : ℚ) / 150 * 60 ∧
    estimateSeconds "a b".data "zz".data = 0 :=
  ⟨estimator_word_offset.1 "a b c keyword d".data "keyword".data 6 (by decide),
   estimator_word_offset.2.1 "a b".data "zz".data (by decide)⟩

/-! ## Mode A loop lemmas -/

/-- `find?` returns the first satisfying segment of an append. -/
lemma findMatchSeg_append (kw : Str) (a : List Seg) (m : Seg) (b : List Seg)
    (ha : ∀ x ∈ a, segMatches kw x = false) (hm : segMatches kw m = true) :
    findMatchSeg kw (a ++ m :: b) = some m := by
  induction a with
  | nil => simp [findMatchSeg, List.find?, hm]
  | cons x xs ih =>
    have hx : segMatches kw x = false := ha x (List.mem_cons_self x xs)
    have ih' := ih (fun y hy => ha y (List.mem_cons_of_mem x hy))
    simpa [findMatchSeg, List.find?, hx] using ih'

/-- Skipping over a prefix of non-matching (or errored) chunks: the loop
continues at the shifted index, counting one transcription call per
skipped chunk. -/
lemma modeALoop_append_noMatch (kw : Str) :
    ∀ (pre rest : List ChunkOutcome) (i : Nat),
      (∀ c ∈ pre, chunkHasMatch kw c = false) →
      modeALoop kw (pre ++ rest) i =
        ((modeALoop kw rest (i + pre.length)).1,
         (modeALoop kw rest (i + pre.length)).2 + pre.length) := by
  intro pre
  induction pre with
  | nil => intro rest i _; simp
  | cons c cs ih =>
    intro rest i h
    have hc : chunkHasMatch kw c = false := h c (List.mem_cons_self c cs)
    have ih' := ih rest (i + 1) (fun y hy => h y (List.mem_cons_of_mem c hy))
    have hidx : i + 1 + cs.length = i + (cs.length + 1) := by omega
    cases c with
    | none =>
      have heq : modeALoop kw ((none :: cs) ++ rest) i =
          ((modeALoop kw (cs ++ rest) (i + 1)).1,
           (modeALoop kw (cs ++ rest) (i + 1)).2 + 1) := rfl
      rw [heq, ih', hidx]
      simp [List.length_cons, Nat.add_assoc]
    | some segs =>
      have hfind : findMatchSeg kw segs = none := by
        cases hf : findMatchSeg kw segs with
        | none => rfl
        | some s => simp [chunkHasMatch, hf] at hc
      have heq : modeALoop kw ((some segs :: cs) ++ rest) i =
          (match findMatchSeg kw segs with
           | some s => (some (s.start + ((i * chunkDurationSec : ℕ) : ℚ)), 1)
           | none => ((modeALoop kw (cs ++ rest) (i + 1)).1,
                      (modeALoop kw (cs ++ rest) (i + 1)).2 + 1)) := rfl
      rw [heq]
      simp only [hfind]
      rw [ih', hidx]
      simp [List.length_cons, Nat.add_assoc]

end VideoSearch

namespace VideoSearch

/-! ## Claim C1 — Mode A sequential early exit -/

/-- Claim C1: in Mode A the chunks are processed strictly in index order
with chunk duration 300 seconds; for the first chunk whose returned
segments contain the keyword (case-insensitively), the orchestrator
returns `segment.start + index * 300` and performs no transcription call
on any later chunk: over `pre.length + 1 + post.length` chunks where no
chunk of `pre` matches and the next chunk's first matching segment is
`m`, the result is `m.start + pre.length * 300` and exactly
`pre.length + 1` transcription calls are made. -/
theorem modeA_early_exit_first_match
    (env : ModeAEnv) (keyword : Str) (pre post : List ChunkOutcome)
    (a b : List Seg) (m : Seg)
    (h1 : env.audioDownloadOk = true) (h2 : env.mkdirOk = true)
    (h3 : env.segmentationOk = true) (h4 : env.apiKeyPresent = true)
    (hchunks : env.chunks = pre ++ some (a ++ m :: b) :: post)
    (hpre : ∀ c ∈ pre, chunkHasMatch (lowerStr (trimSpace keyword)) c = false)
    (ha : ∀ s ∈ a, segMatches (lowerStr (trimSpace keyword)) s = false)
    (hm : segMatches (lowerStr (trimSpace keyword)) m = true) :
    chunkDurationSec = 300 ∧
    TranscribeChunkedUntilMatch env keyword =
      .ok (m.start + ((pre.length * 300 : ℕ) : ℚ), true) ∧
    modeACalls env keyword = pre.length + 1 := by
  have hloop :
      modeALoop (lowerStr (trimSpace keyword)) env.chunks 0 =
        (some (m.start + ((pre.length * 300 : ℕ) : ℚ)), 1 + pre.length) := by
    rw [hchunks, modeALoop_append_noMatch _ pre _ 0 hpre]
    have hfind := findMatchSeg_append (lowerStr (trimSpace keyword)) a m b ha hm
    simp [modeALoop, hfind, chunkDurationSec]
  have hne : env.chunks ≠ [] := by
    rw [hchunks]; simp
  refine ⟨rfl, ?_, ?_⟩
  · simp [TranscribeChunkedUntilMatch, TranscribeChunkedUntilMatchT, h1, h2, h3, h4,
      hne, hloop]
  · simp [modeACalls, TranscribeChunkedUntilMatchT, h1, h2, h3, h4, hne, hloop]
    omega

/-- Mode A environment of the C1 witness: three chunks; chunk 0 returns a
non-matching segment, chunk 1 returns no segments, chunk 2 matches at
local time 10.0s. -/
def envC1 : ModeAEnv :=
  { audioDownloadOk := true, mkdirOk := true, segmentationOk := true,
    chunks :=
      [some [⟨2, 4, "nothing here".data⟩],
       some [],
       some [⟨10, 14, "and the keyword appears".data⟩]],
    apiKeyPresent := true }

/-- Witness for C1: over 3 chunks of 300s each where only chunk index 2
matches at local time 10.0s, Mode A returns 610.0 seconds after exactly 3
transcription calls (none beyond chunk index 2). -/
theorem modeA_early_exit_first_match_witness :
    chunkDurationSec = 300 ∧
    TranscribeChunkedUntilMatch envC1 "keyword".data = .ok (610, true) ∧
    modeACalls envC1 "keyword".data = 3 := by
  have h := modeA_early_exit_first_match envC1 "keyword".data
    [some [⟨2, 4, "nothing here".data⟩], some []] [] []
    [] ⟨10, 14, "and the keyword appears".data⟩
    rfl rfl rfl rfl rfl (by decide) (by decide) (by decide)
  refine ⟨h.1, ?_, h.2.2⟩
  have hv : ((10 : ℚ) + (([some [(⟨2, 4, "nothing here".data⟩ : Seg)],
      some []].length * 300 : ℕ) : ℚ)) = 610 := by
    norm_num
  rw [← hv]
  exact h.2.1

/-! ## Claim C5 — Mode A treats chunk failures as skips -/

/-- An errored chunk behaves exactly like a chunk that returned no
segments: the loop continues at the next index either way. -/
lemma modeALoop_skip (kw : Str) :
    ∀ (xs ys : List ChunkOutcome) (i : Nat),
      modeALoop kw (xs ++ none :: ys) i = modeALoop kw (xs ++ some [] :: ys) i := by
  intro xs
  induction xs with
  | nil =>
    intro ys i
    have h1 : modeALoop kw ([] ++ none :: ys) i =
        ((modeALoop kw ys (i + 1)).1, (modeALoop kw ys (i + 1)).2 + 1) := rfl
    have h2 : modeALoop kw ([] ++ some [] :: ys) i =
        ((modeALoop kw ys (i + 1)).1, (modeALoop kw ys (i + 1)).2 + 1) := rfl
    rw [h1, h2]
  | cons c cs ih =>
    intro ys i
    cases c with
    | none =>
      have h1 : modeALoop kw ((none :: cs) ++ none :: ys) i =
          ((modeALoop kw (cs ++ none :: ys) (i + 1)).1,
           (modeALoop kw (cs ++ none :: ys) (i + 1)).2 + 1) := rfl
      have h2 : modeALoop kw ((none :: cs) ++ some [] :: ys) i =
          ((modeALoop kw (cs ++ some [] :: ys) (i + 1)).1,
           (modeALoop kw (cs ++ some [] :: ys) (i + 1)).2 + 1) := rfl
      rw [h1, h2, ih]
    | some segs =>
      cases hf : findMatchSeg kw segs with
      | some s =>
        have h1 : modeALoop kw ((some segs :: cs) ++ none :: ys) i =
            (some (s.start + ((i * chunkDurationSec : ℕ) : ℚ)), 1) := by
          show (match findMatchSeg kw segs with
            | some s => (some (s.start + ((i * chunkDurationSec : ℕ) : ℚ)), 1)
            | none => ((modeALoop kw (cs ++ none :: ys) (i + 1)).1,
                       (modeALoop kw (cs ++ none :: ys) (i + 1)).2 + 1)) = _
          rw [hf]
        have h2 : modeALoop kw ((some segs :: cs) ++ some [] :: ys) i =
            (some (s.start + ((i * chunkDurationSec : ℕ) : ℚ)), 1) := by
          show (match findMatchSeg kw segs with
            | some s => (some (s.start + ((i * chunkDurationSec : ℕ) : ℚ)), 1)
            | none => ((modeALoop kw (cs ++ some [] :: ys) (i + 1)).1,
                       (modeALoop kw (cs ++ some [] :: ys) (i + 1)).2 + 1)) = _
          rw [hf]
        rw [h1, h2]
      | none =>
        have h1 : modeALoop kw ((some segs :: cs) ++ none :: ys) i =
            ((modeALoop kw (cs ++ none :: ys) (i + 1)).1,
             (modeALoop kw (cs ++ none :: ys) (i + 1)).2 + 1) := by
          show (match findMatchSeg kw segs with
            | some s => (some (s.start + ((i * chunkDurationSec : ℕ) : ℚ)), 1)
            | none => ((modeALoop kw (cs ++ none :: ys) (i + 1)).1,
                       (modeALoop kw (cs ++ none :: ys) (i + 1)).2 + 1)) = _
          rw [hf]
        have h2 : modeALoop kw ((some segs :: cs) ++ some [] :: ys) i =
            ((modeALoop kw (cs ++ some [] :: ys) (i + 1)).1,
             (modeALoop kw (cs ++ some [] :: ys) (i + 1)).2 + 1) := by
          show (match findMatchSeg kw segs with
            | some s => (some (s.start + ((i * chunkDurationSec : ℕ) : ℚ)), 1)
            | none => ((modeALoop kw (cs ++ some [] :: ys) (i + 1)).1,
                       (modeALoop kw (cs ++ some [] :: ys) (i + 1)).2 + 1)) = _
          rw [hf]
        rw [h1, h2, ih]

/-- Claim C5: in Mode A a transcription failure on one chunk is a skip —
the run is indistinguishable from one in which that chunk succeeded with
no segments, so processing continues with the next chunk — and the
(not-found) total-failure report reaches the caller only once every chunk
has been attempted and failed: when all chunks error, the result is
`(0, false)` with no Go error after `chunks.length` transcription calls;
more generally, whenever no chunk matches the result is `(0, false)` with
no error rather than an error. -/
theorem modeA_failure_skip_and_not_found
    (env : ModeAEnv) (keyword : Str)
    (h1 : env.audioDownloadOk = true) (h2 : env.mkdirOk = true)
    (h3 : env.segmentationOk = true) (h4 : env.apiKeyPresent = true) :
    (∀ xs ys, env.chunks = xs ++ none :: ys →
      TranscribeChunkedUntilMatchT env keyword =
        TranscribeChunkedUntilMatchT { env with chunks := xs ++ some [] :: ys } keyword) ∧
    ((∀ c ∈ env.chunks, c = none) → env.chunks ≠ [] →
      TranscribeChunkedUntilMatch env keyword = .ok (0, false) ∧
      modeACalls env keyword = env.chunks.length) ∧
    ((∀ c ∈ env.chunks, chunkHasMatch (lowerStr (trimSpace keyword)) c = false) →
      env.chunks ≠ [] →
      TranscribeChunkedUntilMatch env keyword = .ok (0, false)) := by
  have hnomatch :
      ∀ (h : ∀ c ∈ env.chunks, chunkHasMatch (lowerStr (trimSpace keyword)) c = false),
        modeALoop (lowerStr (trimSpace keyword)) env.chunks 0 = (none, env.chunks.length) := by
    intro h
    have h0 := modeALoop_append_noMatch (lowerStr (trimSpace keyword)) env.chunks [] 0 h
    have hnil : modeALoop (lowerStr (trimSpace keyword)) [] env.chunks.length =
        (none, 0) := rfl
    simpa [hnil] using h0
  refine ⟨?_, ?_, ?_⟩
  · intro xs ys hx
    have hskip := modeALoop_skip (lowerStr (trimSpace keyword)) xs ys 0
    have hl : (xs ++ none :: ys).length = (xs ++ some [] :: ys).length := by simp
    simp only [TranscribeChunkedUntilMatchT, h1, h2, h3, h4, hx]
    rw [hskip, hl]
  · intro hall hne
    have hcm : ∀ c ∈ env.chunks, chunkHasMatch (lowerStr (trimSpace keyword)) c = false := by
      intro c hc
      rw [hall c hc]
      rfl
    constructor
    · simp [TranscribeChunkedUntilMatch, TranscribeChunkedUntilMatchT, h1, h2, h3, h4,
        hne, hnomatch hcm]
    · simp [modeACalls, TranscribeChunkedUntilMatchT, h1, h2, h3, h4, hne, hnomatch hcm]
  · intro hcm hne
    simp [TranscribeChunkedUntilMatch, TranscribeChunkedUntilMatchT, h1, h2, h3, h4,
      hne, hnomatch hcm]

/-- Mode A environment of the C5 witness: two chunks, both of whose
transcription calls fail. -/
def envC5 : ModeAEnv :=
  { audioDownloadOk := true, mkdirOk := true, segmentationOk := true,
    chunks := [none, none], apiKeyPresent := true }

/-- Witness for C5: with both chunks failing, the first failure is a
skip (the run equals a run where chunk 0 returned no segments), and the
total result — produced only after both chunks were attempted — is
not-found with no error. -/
theorem modeA_failure_skip_and_not_found_witness :
    TranscribeChunkedUntilMatchT envC5 "keyword".data =
      TranscribeChunkedUntilMatchT { envC5 with chunks := [some [], none] } "keyword".data ∧
    TranscribeChunkedUntilMatch envC5 "keyword".data = .ok (0, false) ∧
    modeACalls envC5 "keyword".data = 2 := by
  have h := modeA_failure_skip_and_not_found envC5 "keyword".data rfl rfl rfl rfl
  refine ⟨h.1 [] [none] rfl, (h.2.1 (by decide) (by decide)).1, ?_⟩
  have := (h.2.1 (by decide) (by decide)).2
  simpa using this

/-! ## Stream-search loop lemmas -/

/-- The full-text value the decoder has captured after walking a field
list: the last top-level `text` field's value, if any. -/
def threadFT : List JField → Str → Str
  | [], ft => ft
  | .text t :: rest, _ => threadFT rest t
  | .segments _ :: rest, ft => threadFT rest ft
  | .other :: rest, ft => threadFT rest ft

/-- Number of segment elements decoded while walking a field list none of
whose segment arrays produces a match. -/
def preSegCount (kw : Str) : List JField → Nat
  | [] => 0
  | .segments ss :: rest => (scanSegs kw ss).2 + preSegCount kw rest
  | .text _ :: rest => preSegCount kw rest
  | .other :: rest => preSegCount kw rest

/-- The element scan returns the first matching segment of an append,
having decoded exactly the elements up to and including it. -/
lemma scanSegs_append (kw : Str) (a : List TranscriptSegment)
    (m : TranscriptSegment) (b : List TranscriptSegment)
    (ha : ∀ x ∈ a, tsMatches kw x = false) (hm : tsMatches kw m = true) :
    scanSegs kw (a ++ m :: b) = (some m.start, a.length + 1) := by
  induction a with
  | nil => simp [scanSegs, hm]
  | cons x xs ih =>
    have hx : tsMatches kw x = false := ha x (List.mem_cons_self x xs)
    have ih' := ih (fun y hy => ha y (List.mem_cons_of_mem x hy))
    simp [scanSegs, hx, ih']

/-- Walking a prefix of fields whose segment arrays all scan to no match:
the loop continues past them, having visited one field each and decoded
their segment elements, threading the captured full text. -/
lemma streamLoop_append (kw : Str) :
    ∀ (pre rest : List JField) (ft : Str),
      (∀ ss, JField.segments ss ∈ pre → (scanSegs kw ss).1 = none) →
      streamLoop kw (pre ++ rest) ft =
        { res := (streamLoop kw rest (threadFT pre ft)).res,
          segsDecoded := preSegCount kw pre + (streamLoop kw rest (threadFT pre ft)).segsDecoded,
          fieldsVisited := (streamLoop kw rest (threadFT pre ft)).fieldsVisited + pre.length,
          fullText := (streamLoop kw rest (threadFT pre ft)).fullText } := by
  intro pre
  induction pre with
  | nil =>
    intro rest ft _
    simp [threadFT, preSegCount]
  | cons f fs ih =>
    intro rest ft h
    cases f with
    | segments ss =>
      have hss : (scanSegs kw ss).1 = none :=
        h ss (List.mem_cons_self _ fs)
      have hscan : scanSegs kw ss = (none, (scanSegs kw ss).2) := by
        cases hs : scanSegs kw ss with
        | mk r n => rw [hs] at hss; simpa using hss.symm ▸ rfl
      have heq : streamLoop kw ((JField.segments ss :: fs) ++ rest) ft =
          (match scanSegs kw ss with
           | (some ts, n) => ⟨some ts, n, 1, ft⟩
           | (none, n) =>
             let o := streamLoop kw (fs ++ rest) ft
             ⟨o.res, n + o.segsDecoded, o.fieldsVisited + 1, o.fullText⟩) := rfl
      rw [heq, hscan]
      have ih' := ih rest ft (fun ss' hs' => h ss' (List.mem_cons_of_mem _ hs'))
      simp only [ih', threadFT, preSegCount, List.length_cons]
      simp only [StreamOut.mk.injEq, true_and, and_true]
      constructor <;> omega
    | text t =>
      have heq : streamLoop kw ((JField.text t :: fs) ++ rest) ft =
          (let o := streamLoop kw (fs ++ rest) t
           ⟨o.res, o.segsDecoded, o.fieldsVisited + 1, o.fullText⟩) := rfl
      rw [heq]
      have ih' := ih rest t (fun ss' hs' => h ss' (List.mem_cons_of_mem _ hs'))
      simp [ih', threadFT, preSegCount, List.length_cons, Nat.add_assoc]
    | other =>
      have heq : streamLoop kw ((JField.other :: fs) ++ rest) ft =
          (let o := streamLoop kw (fs ++ rest) ft
           ⟨o.res, o.segsDecoded, o.fieldsVisited + 1, o.fullText⟩) := rfl
      rw [heq]
      have ih' := ih rest ft (fun ss' hs' => h ss' (List.mem_cons_of_mem _ hs'))
      simp [ih', threadFT, preSegCount, List.length_cons, Nat.add_assoc]

/-- A field list containing no `segments` field decodes no segment
element. -/
lemma preSegCount_of_no_segments (kw : Str) :
    ∀ (l : List JField), (∀ ss, JField.segments ss ∈ l → False) →
      preSegCount kw l = 0 := by
  intro l
  induction l with
  | nil => intro _; rfl
  | cons f fs ih =>
    intro h
    cases f with
    | segments ss => exact absurd (List.mem_cons_self _ fs) (fun hm => h ss hm)
    | text t => exact ih (fun ss hm => h ss (List.mem_cons_of_mem _ hm))
    | other => exact ih (fun ss hm => h ss (List.mem_cons_of_mem _ hm))

end VideoSearch

namespace VideoSearch

/-! ## Claim C2 — streaming transcript search returns the first match -/

/-- Claim C2: `searchInTranscriptJSON` returns the `start` of the first
segment in document order whose text contains the keyword
case-insensitively — even if later segments (`b`) or later fields
(`dpost`) also match — and it returns immediately: it decodes exactly the
segment elements up to and including the match and visits no top-level
field beyond the `segments` field. -/
theorem stream_search_first_match
    (doc : List JField) (keyword : Str) (dpre dpost : List JField)
    (a b : List TranscriptSegment) (m : TranscriptSegment)
    (hdoc : doc = dpre ++ JField.segments (a ++ m :: b) :: dpost)
    (hnoseg : ∀ ss, JField.segments ss ∈ dpre → False)
    (ha : ∀ x ∈ a, tsMatches (lowerStr (trimSpace keyword)) x = false)
    (hm : tsMatches (lowerStr (trimSpace keyword)) m = true) :
    searchInTranscriptJSON doc keyword = some m.start ∧
    (searchTrace doc keyword).segsDecoded = a.length + 1 ∧
    (searchTrace doc keyword).fieldsVisited = dpre.length + 1 := by
  have hpre : ∀ ss, JField.segments ss ∈ dpre →
      (scanSegs (lowerStr (trimSpace keyword)) ss).1 = none :=
    fun ss hs => absurd hs (fun h => hnoseg ss h)
  have hscan := scanSegs_append (lowerStr (trimSpace keyword)) a m b ha hm
  have hhead : streamLoop (lowerStr (trimSpace keyword))
      (JField.segments (a ++ m :: b) :: dpost) (threadFT dpre []) =
      ⟨some m.start, a.length + 1, 1, threadFT dpre []⟩ := by
    show (match scanSegs (lowerStr (trimSpace keyword)) (a ++ m :: b) with
      | (some ts, n) => (⟨some ts, n, 1, threadFT dpre []⟩ : StreamOut)
      | (none, n) =>
        let o := streamLoop (lowerStr (trimSpace keyword)) dpost (threadFT dpre [])
        ⟨o.res, n + o.segsDecoded, o.fieldsVisited + 1, o.fullText⟩) = _
    rw [hscan]
  have htrace : searchTrace doc keyword =
      ⟨some m.start, preSegCount (lowerStr (trimSpace keyword)) dpre + (a.length + 1),
       1 + dpre.length, threadFT dpre []⟩ := by
    rw [searchTrace, hdoc,
      streamLoop_append (lowerStr (trimSpace keyword)) dpre _ [] hpre, hhead]
  have hzero := preSegCount_of_no_segments (lowerStr (trimSpace keyword)) dpre hnoseg
  refine ⟨?_, ?_, ?_⟩
  · rw [searchInTranscriptJSON]
    have : (searchTrace doc keyword).res = some m.start := by rw [htrace]
    simp only [htrace]
  · rw [htrace, hzero]
    simp
  · rw [htrace]
    simp [Nat.add_comm]

/-- Concrete streamed document of the C2 witness: a `text` field, a
skipped field, then a `segments` array whose second element is the first
match; a later segment and a later `segments` field also match. -/
def docC2 : List JField :=
  [JField.text "the key is here".data,
   JField.other,
   JField.segments
     [⟨0, 3, 8, "no match in this one".data⟩,
      ⟨1, 42, 47, "the Key appears".data⟩,
      ⟨2, 50, 55, "key again later".data⟩],
   JField.segments [⟨0, 90, 95, "key in a later field".data⟩],
   JField.other]

/-- Witness for C2: on `docC2` with keyword `"Key"` the search returns the
first matching segment's start (42), decoding exactly 2 segment elements
and visiting exactly 3 top-level fields. -/
theorem stream_search_first_match_witness :
    searchInTranscriptJSON docC2 "Key".data = some 42 ∧
    (searchTrace docC2 "Key".data).segsDecoded = 2 ∧
    (searchTrace docC2 "Key".data).fieldsVisited = 3 := by
  have h := stream_search_first_match docC2 "Key".data
    [JField.text "the key is here".data, JField.other]
    [JField.segments [⟨0, 90, 95, "key in a later field".data⟩], JField.other]
    [⟨0, 3, 8, "no match in this one".data⟩]
    [⟨2, 50, 55, "key again later".data⟩]
    ⟨1, 42, 47, "the Key appears".data⟩
    rfl (by intro ss hs; simp at hs) (by decide) (by decide)
  exact ⟨h.1, h.2.1, h.2.2⟩

/-! ## Mode B merge lemmas -/

/-- No chunk errored: the error sweep finds nothing. -/
lemma firstErr_eq_none :
    ∀ (l : List (Option ChunkResp)), (∀ c ∈ l, c.isSome = true) →
      firstErr l = none := by
  intro l
  induction l with
  | nil => intro _; rfl
  | cons c cs ih =>
    intro h
    cases c with
    | none => simpa using h none (List.mem_cons_self _ cs)
    | some r =>
      have := ih (fun y hy => h y (List.mem_cons_of_mem _ hy))
      simp [firstErr, this]

/-- Some chunk errored: the error sweep finds an index. -/
lemma firstErr_isSome_of_mem :
    ∀ (l : List (Option ChunkResp)), none ∈ l → ∃ i, firstErr l = some i := by
  intro l
  induction l with
  | nil => intro h; simp at h
  | cons c cs ih =>
    intro h
    cases c with
    | none => exact ⟨0, rfl⟩
    | some r =>
      have hmem : (none : Option ChunkResp) ∈ cs := by
        rcases List.mem_cons.mp h with h1 | h1
        · exact absurd h1 (by simp)
        · exact h1
      obtain ⟨i, hi⟩ := ih hmem
      exact ⟨i + 1, by simp [firstErr, hi]⟩

/-- The merge fold splits into the index-ordered segment concatenation
and the non-empty text collection. -/
lemma foldl_merge_pair :
    ∀ (l : List (Nat × ChunkResp)) (acc : List TranscriptSegment × List Str),
      l.foldl (fun acc r =>
          (acc.1 ++ mergeChunk r.1 r.2,
           if r.2.text.isEmpty then acc.2 else acc.2 ++ [r.2.text])) acc =
        (acc.1 ++ l.flatMap (fun r => mergeChunk r.1 r.2),
         acc.2 ++ (l.filter (fun r => !r.2.text.isEmpty)).map (fun r => r.2.text)) := by
  intro l
  induction l with
  | nil => intro acc; simp
  | cons x xs ih =>
    intro acc
    rw [List.foldl_cons, ih, List.filter_cons, List.flatMap_cons]
    cases hx : x.2.text.isEmpty with
    | true => simp [List.append_assoc]
    | false => simp [List.append_assoc]

/-- Characterization of `mergeResults`: segments are the offset-adjusted
per-chunk segments concatenated in index order, the text is the join of
the non-empty chunk texts, and the duration is the last segment's end
(zero with no segments). -/
lemma mergeResults_spec (chunks : List (Option ChunkResp)) :
    (mergeResults chunks).segments =
      chunks.enum.flatMap (fun p => mergeChunk p.1 (p.2.getD ⟨[], []⟩)) ∧
    (mergeResults chunks).text =
      joinWith [' ']
        ((chunks.enum.filter (fun p => !(p.2.getD ⟨[], []⟩).text.isEmpty)).map
          (fun p => (p.2.getD ⟨[], []⟩).text)) ∧
    (mergeResults chunks).duration =
      (match (mergeResults chunks).segments.getLast? with
       | some s => s.end_
       | none => 0) := by
  have hfold := foldl_merge_pair
    (chunks.enum.map fun p => (p.1, p.2.getD ⟨[], []⟩)) ([], [])
  refine ⟨?_, ?_, rfl⟩
  · have hp : (mergeResults chunks).segments =
        ((chunks.enum.map fun p => (p.1, p.2.getD ⟨[], []⟩)).foldl
          (fun acc r =>
            (acc.1 ++ mergeChunk r.1 r.2,
             if r.2.text.isEmpty then acc.2 else acc.2 ++ [r.2.text])) ([], [])).1 := rfl
    rw [hp, hfold]
    simp [List.flatMap_map]
  · have hp : (mergeResults chunks).text =
        joinWith [' ']
          ((chunks.enum.map fun p => (p.1, p.2.getD ⟨[], []⟩)).foldl
            (fun acc r =>
              (acc.1 ++ mergeChunk r.1 r.2,
               if r.2.text.isEmpty then acc.2 else acc.2 ++ [r.2.text])) ([], [])).2 := rfl
    rw [hp, hfold]
    simp [List.filter_map, List.map_map, Function.comp_def]

end VideoSearch

namespace VideoSearch

/-! ## Claim C3 — Mode B merges chunks in index order -/

/-- Claim C3: on success Mode B returns the merged transcript, whose
segment list concatenates each chunk's segments in chunk-index order with
every time value offset by `index * 300` seconds (`mergeChunk`), whose
full text joins the chunk texts with separators, and whose
`totalDuration` is the last segment's absolute end (zero when there are
no segments). -/
theorem modeB_merge_ordered
    (env : ModeBEnv)
    (h1 : env.audioDownloadOk = true) (h2 : env.mkdirOk = true)
    (h3 : env.segmentationOk = true) (h4 : env.apiKeyPresent = true)
    (h5 : env.writeOk = true)
    (hall : ∀ c ∈ env.chunks, c.isSome = true) (hne : env.chunks ≠ []) :
    GetTranscript env = .ok (mergeResults env.chunks) ∧
    (mergeResults env.chunks).segments =
      env.chunks.enum.flatMap (fun p => mergeChunk p.1 (p.2.getD ⟨[], []⟩)) ∧
    (mergeResults env.chunks).text =
      joinWith [' ']
        ((env.chunks.enum.filter (fun p => !(p.2.getD ⟨[], []⟩).text.isEmpty)).map
          (fun p => (p.2.getD ⟨[], []⟩).text)) ∧
    ((mergeResults env.chunks).segments = [] → (mergeResults env.chunks).duration = 0) ∧
    (∀ s, (mergeResults env.chunks).segments.getLast? = some s →
      (mergeResults env.chunks).duration = s.end_) := by
  obtain ⟨hseg, htext, hdur⟩ := mergeResults_spec env.chunks
  refine ⟨?_, hseg, htext, ?_, ?_⟩
  · simp [GetTranscript, h1, h2, h3, h4, h5, hne, firstErr_eq_none env.chunks hall]
  · intro hempty
    rw [hdur, hempty]
    rfl
  · intro s hs
    rw [hdur, hs]

/-- Mode B environment of the C3 witness: chunk 0's segments end at local
time 290s, chunk 1's segments start at local time 5s. -/
def envC3 : ModeBEnv :=
  { audioDownloadOk := true, mkdirOk := true, segmentationOk := true,
    chunks :=
      [some ⟨"first part of the talk".data,
             [⟨270, 280, "first part".data⟩, ⟨280, 290, "of the talk".data⟩]⟩,
       some ⟨"second part".data, [⟨5, 15, "second part".data⟩]⟩],
    apiKeyPresent := true, writeOk := true }

/-- Witness for C3: merging the two chunks yields chunk-1's segment at
absolute start `300 + 5 = 305` after chunk-0's segments, and
`totalDuration = 315`, the last chunk's last segment's absolute end. -/
theorem modeB_merge_ordered_witness :
    GetTranscript envC3 = .ok (mergeResults envC3.chunks) ∧
    (mergeResults envC3.chunks).segments.map (fun s => s.start) = [270, 280, 305] ∧
    (mergeResults envC3.chunks).duration = 315 ∧
    (mergeResults envC3.chunks).text =
      "first part of the talk second part".data := by
  have h := modeB_merge_ordered envC3 rfl rfl rfl rfl rfl (by decide) (by decide)
  refine ⟨h.1, ?_, ?_, ?_⟩
  · have hs : (mergeResults envC3.chunks).segments.map (fun s => s.start) =
        [270 + ((0 * chunkDurationSec : ℕ) : ℚ),
         280 + ((0 * chunkDurationSec : ℕ) : ℚ),
         5 + ((1 * chunkDurationSec : ℕ) : ℚ)] := rfl
    rw [hs]
    norm_num [chunkDurationSec]
  · have hd : (mergeResults envC3.chunks).duration =
        15 + ((1 * chunkDurationSec : ℕ) : ℚ) := rfl
    rw [hd]
    norm_num [chunkDurationSec]
  · rfl

/-! ## Claim C4 — any Mode B chunk failure fails the whole operation -/

/-- Claim C4: if any chunk's transcription fails in Mode B, the whole
`GetTranscript` operation returns an error — no merged transcript is
produced — even when all other chunks succeeded. -/
theorem modeB_any_failure_fails
    (env : ModeBEnv) (hmem : none ∈ env.chunks) :
    ∃ e, GetTranscript env = .error e := by
  obtain ⟨i, hi⟩ := firstErr_isSome_of_mem env.chunks hmem
  rw [GetTranscript]
  split
  · exact ⟨_, rfl⟩
  · split
    · exact ⟨_, rfl⟩
    · split
      · exact ⟨_, rfl⟩
      · split
        · exact ⟨_, rfl⟩
        · split
          · exact ⟨_, rfl⟩
          · rw [hi]
            exact ⟨_, rfl⟩

/-- Mode B environment of the C4 witness: three chunks, only the middle
one errors. -/
def envC4 : ModeBEnv :=
  { audioDownloadOk := true, mkdirOk := true, segmentationOk := true,
    chunks :=
      [some ⟨"alpha".data, [⟨0, 9, "alpha".data⟩]⟩,
       none,
       some ⟨"gamma".data, [⟨3, 7, "gamma".data⟩]⟩],
    apiKeyPresent := true, writeOk := true }

/-- Witness for C4: with exactly one of three chunks failing,
`GetTranscript` errors. -/
theorem modeB_any_failure_fails_witness :
    ∃ e, GetTranscript envC4 = .error e :=
  modeB_any_failure_fails envC4 (by decide)

/-! ## Claim C6 — pipeline falls through to Mode B and reports FOUND -/

/-- Claim C6: a caption download failure, followed by a Mode A hard
error, followed by a successful Mode B transcript acquisition whose
transcript contains the keyword, yields a found result carrying the
Mode B-derived timestamp — never an error. -/
theorem pipeline_modeB_found
    (env : PipelineEnv) (keyword lang : Str) (e : Str)
    (t : TranscriptResponse) (ts : ℚ)
    (hc : env.captions = none)
    (hA : TranscribeChunkedUntilMatch env.modeA keyword = .error e)
    (hB : GetTranscript env.modeB = .ok t)
    (hr : env.readTranscriptOk = true)
    (hs : searchInTranscriptJSON (docOfTranscript t) keyword = some ts) :
    SearchKeywordInSubtitles env keyword lang =
      .ok (ts, true,
        if (lowerStr (trimSpace lang)).isEmpty then "en".data
        else lowerStr (trimSpace lang)) := by
  rw [SearchKeywordInSubtitles]
  simp only [hc, hA, pipelineFallback, hB, hr, hs]
  simp

/-- Pipeline environment of the C6 witness: caption download fails, Mode
A's audio download fails (a hard Mode A error), Mode B succeeds with a
single chunk whose segment at local time 5s contains the keyword. -/
def envC6 : PipelineEnv :=
  { captions := none,
    modeA :=
      { audioDownloadOk := false, mkdirOk := true, segmentationOk := true,
        chunks := [], apiKeyPresent := true },
    modeB :=
      { audioDownloadOk := true, mkdirOk := true, segmentationOk := true,
        chunks := [some ⟨"hello keyword there".data,
                         [⟨5, 9, "hello keyword there".data⟩]⟩],
        apiKeyPresent := true, writeOk := true },
    readTranscriptOk := true }

/-- Witness for C6: the pipeline returns found at the Mode B-derived
timestamp (5s, from chunk index 0), not an error. -/
theorem pipeline_modeB_found_witness :
    SearchKeywordInSubtitles envC6 "keyword".data [] = .ok (5, true, "en".data) := by
  have h := pipeline_modeB_found envC6 "keyword".data [] "audio download failed".data
    (mergeResults envC6.modeB.chunks) (5 + ((0 * chunkDurationSec : ℕ) : ℚ))
    rfl rfl rfl rfl rfl
  have hv : ((5 : ℚ) + ((0 * chunkDurationSec : ℕ) : ℚ)) = 5 := by
    norm_num
  rw [hv] at h
  exact h

/-! ## Claim C10 — empty or all-whitespace keywords always match -/

/-- Claim C10 (implicit): the transcription tiers trim and lowercase the
keyword before the substring test, so an empty or whitespace-only keyword
is reported as found rather than rejected: Mode A returns the first
returned segment's start plus its chunk offset (the first chunk that
succeeds with a non-empty segment list — earlier chunks having errored or
returned no segments), and the JSON transcript search returns the first
decoded segment's start (earlier `segments` fields being empty). -/
theorem blank_keyword_always_found
    (keyword : Str) (hkw : ∀ c ∈ keyword, uSpace c = true)
    (env : ModeAEnv)
    (h1 : env.audioDownloadOk = true) (h2 : env.mkdirOk = true)
    (h3 : env.segmentationOk = true) (h4 : env.apiKeyPresent = true)
    (pre post : List ChunkOutcome) (s : Seg) (ss : List Seg)
    (hchunks : env.chunks = pre ++ some (s :: ss) :: post)
    (hpre : ∀ c ∈ pre, c = none ∨ c = some [])
    (doc : List JField) (dpre dpost : List JField)
    (s2 : TranscriptSegment) (ss2 : List TranscriptSegment)
    (hdoc : doc = dpre ++ JField.segments (s2 :: ss2) :: dpost)
    (hdpre : ∀ ss', JField.segments ss' ∈ dpre → ss' = []) :
    TranscribeChunkedUntilMatch env keyword =
      .ok (s.start + ((pre.length * 300 : ℕ) : ℚ), true) ∧
    searchInTranscriptJSON doc keyword = some s2.start := by
  have hk : lowerStr (trimSpace keyword) = [] := by
    rw [trimSpace_of_all_space keyword hkw]
    rfl
  constructor
  · have hpre' : ∀ c ∈ pre, chunkHasMatch (lowerStr (trimSpace keyword)) c = false := by
      intro c hc
      rcases hpre c hc with h | h <;> rw [h] <;> rfl
    have hfind : findMatchSeg (lowerStr (trimSpace keyword)) (s :: ss) = some s := by
      have hms : segMatches (lowerStr (trimSpace keyword)) s = true := by
        rw [hk]
        exact containsSub_nil (lowerStr s.text)
      simp [findMatchSeg, List.find?, hms]
    have hloop :
        modeALoop (lowerStr (trimSpace keyword)) env.chunks 0 =
          (some (s.start + ((pre.length * 300 : ℕ) : ℚ)), 1 + pre.length) := by
      rw [hchunks, modeALoop_append_noMatch _ pre _ 0 hpre']
      simp [modeALoop, hfind, chunkDurationSec]
    have hne : env.chunks ≠ [] := by
      rw [hchunks]; simp
    simp [TranscribeChunkedUntilMatch, TranscribeChunkedUntilMatchT, h1, h2, h3, h4,
      hne, hloop]
  · have hpre' : ∀ ss', JField.segments ss' ∈ dpre →
        (scanSegs (lowerStr (trimSpace keyword)) ss').1 = none := by
      intro ss' hs'
      rw [hdpre ss' hs']
      rfl
    have hscan : scanSegs (lowerStr (trimSpace keyword)) (s2 :: ss2) =
        (some s2.start, 1) := by
      have hms : tsMatches (lowerStr (trimSpace keyword)) s2 = true := by
        rw [hk]
        exact containsSub_nil (lowerStr s2.text)
      simp [scanSegs, hms]
    have hhead : streamLoop (lowerStr (trimSpace keyword))
        (JField.segments (s2 :: ss2) :: dpost) (threadFT dpre []) =
        ⟨some s2.start, 1, 1, threadFT dpre []⟩ := by
      show (match scanSegs (lowerStr (trimSpace keyword)) (s2 :: ss2) with
        | (some ts, n) => (⟨some ts, n, 1, threadFT dpre []⟩ : StreamOut)
        | (none, n) =>
          let o := streamLoop (lowerStr (trimSpace keyword)) dpost (threadFT dpre [])
          ⟨o.res, n + o.segsDecoded, o.fieldsVisited + 1, o.fullText⟩) = _
      rw [hscan]
    have htrace : searchTrace doc keyword =
        ⟨some s2.start,
         preSegCount (lowerStr (trimSpace keyword)) dpre + 1,
         1 + dpre.length, threadFT dpre []⟩ := by
      rw [searchTrace, hdoc,
        streamLoop_append (lowerStr (trimSpace keyword)) dpre _ [] hpre', hhead]
    rw [searchInTranscriptJSON]
    simp only [htrace]

/-- Mode A environment of the C10 witness: chunk 0 errors, chunk 1
returns a segment at local time 7s. -/
def envC10 : ModeAEnv :=
  { audioDownloadOk := true, mkdirOk := true, segmentationOk := true,
    chunks := [none, some [⟨7, 9, "anything at all".data⟩]],
    apiKeyPresent := true }

/-- Streamed document of the C10 witness: an empty `segments` field, a
`text` field, then a `segments` field whose first element starts at 3s. -/
def docC10 : List JField :=
  [JField.segments [], JField.text "x".data,
   JField.segments [⟨0, 3, 4, "whatever".data⟩]]

/-- Witness for C10: with the whitespace-only keyword `" "`, Mode A
reports found at `7 + 1*300 = 307` seconds and the JSON search reports
found at the first decoded segment's start, 3s. -/
theorem blank_keyword_always_found_witness :
    TranscribeChunkedUntilMatch envC10 " ".data = .ok (307, true) ∧
    searchInTranscriptJSON docC10 " ".data = some 3 := by
  have h := blank_keyword_always_found " ".data (by decide) envC10 rfl rfl rfl rfl
    [none] [] ⟨7, 9, "anything at all".data⟩ [] rfl
    (by intro c hc; simp at hc; rw [hc]; exact Or.inl rfl)
    docC10 [JField.segments [], JField.text "x".data] []
    ⟨0, 3, 4, "whatever".data⟩ [] rfl
    (by intro ss' hs'; simp at hs'; exact hs')
  norm_num at h
  exact h

/-! ## Claim C9 — cleanup on every exit path (refuted: the code leaks) -/

/-- Mode B environment exhibiting the C9 leak: everything succeeds except
the second chunk's transcription. -/
def envC9B : ModeBEnv :=
  { audioDownloadOk := true, mkdirOk := true, segmentationOk := true,
    chunks := [some ⟨"alpha".data, [⟨0, 9, "alpha".data⟩]⟩, none],
    apiKeyPresent := true, writeOk := true }

/-- Pipeline environment exhibiting the C9 transcript-file leak: captions
fail, Mode A errors, Mode B succeeds and the keyword is found in the
transcript. -/
def envC9P : PipelineEnv :=
  { captions := none,
    modeA :=
      { audioDownloadOk := false, mkdirOk := true, segmentationOk := true,
        chunks := [], apiKeyPresent := true },
    modeB :=
      { audioDownloadOk := true, mkdirOk := true, segmentationOk := true,
        chunks := [some ⟨"hello keyword there".data,
                         [⟨5, 9, "hello keyword there".data⟩]⟩],
        apiKeyPresent := true, writeOk := true },
    readTranscriptOk := true }

/-- Claim C9 is false of the code: temporary artifacts are not cleaned up
on every exit path.  (1) When a Mode B chunk's transcription fails,
`GetTranscript` returns its error leaving both `audio.mp3` and the
`chunks` directory on disk (main.go:592-596 returns before the cleanup at
main.go:623-625).  (2) On the pipeline's keyword-found exit the
transcript file is not removed: the `defer os.Remove(transcriptFile)` at
main.go:152 is registered only after the found/error returns at
main.go:135-148, so the found result leaves `transcript_segments.json`
behind. -/
theorem cleanup_leaks_on_exit_paths :
    ((fsGetTranscript envC9B FS.clean).1 =
        .error "chunk transcription failed".data ∧
      (fsGetTranscript envC9B FS.clean).2.audioFile = true ∧
      (fsGetTranscript envC9B FS.clean).2.chunksDir = true) ∧
    ((fsSearchKeywordInSubtitles envC9P "keyword".data [] FS.clean).1 =
        .ok (5 + ((0 * chunkDurationSec : ℕ) : ℚ), true, "en".data) ∧
      (fsSearchKeywordInSubtitles envC9P "keyword".data [] FS.clean).2.transcriptFile =
        true) :=
  ⟨⟨rfl, rfl, rfl⟩, ⟨rfl, rfl⟩⟩

end VideoSearch
